import Mathlib

/-!
Verification development for the AuthGHPages secret-collection service.

JavaScript strings are modelled as Lean `String` (or `List Char` where the
source manipulates them character by character), JavaScript objects used as
string-keyed maps are modelled as insertion-ordered association lists,
timestamps (`new Date().toISOString()`) are modelled as an abstract `Nat`
clock passed in by the caller, and the randomness drawn by
`crypto.randomBytes` is modelled as an explicit argument.  Network responses
are modelled as explicit argument records, and thrown/caught JavaScript
errors as `Except`/constructor results.
-/

/-- Characters removed by JavaScript `String.prototype.trim`
(modelled as the common ASCII whitespace). -/
def jsSpace (c : Char) : Bool :=
  c = ' ' ∨ c = '\t' ∨ c = '\n' ∨ c = '\r'

/-- Model of JavaScript `trim()` on a character list: strip leading and
trailing whitespace. -/
def jsTrim (l : List Char) : List Char :=
  ((l.dropWhile jsSpace).reverse.dropWhile jsSpace).reverse

/-- Model of JavaScript `String.prototype.split(sep)` for a one-character
separator: split into the (possibly empty) chunks between separators. -/
def jsSplitOnChar (sep : Char) : List Char → List (List Char)
  | [] => [[]]
  | c :: cs =>
    if c = sep then [] :: jsSplitOnChar sep cs
    else
      match jsSplitOnChar sep cs with
      | [] => [[c]]
      | p :: ps => (c :: p) :: ps

/-- Model of JavaScript `String.prototype.startsWith` on character lists. -/
def strStartsWith : List Char → List Char → Bool
  | [], _ => true
  | _ :: _, [] => false
  | a :: as, b :: bs => a = b && strStartsWith as bs

/-- `secretsNeedsInput.split(',').map(k => k.trim()).filter(Boolean)` from
`createSession` (src/features/sessions-gistless.js line 25); the same
parsing is applied to `listOfKeysToBeEncrypted` on line 47. -/
def parseKeys (s : String) : List String :=
  (((jsSplitOnChar ',' s.data).map (fun l => String.mk (jsTrim l))).filter
    (fun k => k ≠ ""))

/-- JavaScript object property assignment `m[k] = v` on a string-keyed
object modelled as an insertion-ordered association list: overwrite in
place if the key exists, otherwise append. -/
def assocSet {β : Type} : List (String × β) → String → β → List (String × β)
  | [], k, v => [(k, v)]
  | p :: rest, k, v =>
    if p.1 = k then (k, v) :: rest else p :: assocSet rest k v

/-- JavaScript object property read `m[k]` on the same model. -/
def assocGet {β : Type} : List (String × β) → String → Option β
  | [], _ => none
  | p :: rest, k => if p.1 = k then some p.2 else assocGet rest k

/-- The fields of the workflow metadata object consumed by the session
engine (`createSession`, the submit endpoint and
`triggerDownstreamWorkflow`).  Absent (`undefined`) JavaScript fields are
modelled as `none`. -/
structure Metadata where
  runId : Option String
  secretsNeedsInput : Option String
  encryptionKey : Option String
  listOfKeysToBeEncrypted : Option String
  buildEnv : Option String
  applicationNamespace : Option String
  gitToken : Option String
  vaultToken : Option String
  ghApi : Option String
  vaultUrl : Option String
  deriving DecidableEq

/-- One element of `session.secrets.completed`
(src/features/sessions-gistless.js lines 128-133).  The source stores the
literal string `'*****'` in `encryptedValue` rather than the actual
value. -/
structure CompletedEntry where
  key : String
  encryptedValue : String
  submittedBy : String
  timestamp : Nat
  deriving DecidableEq

/-- One element of `session.audit`; the JavaScript records are
heterogeneous objects, so fields absent from a given record are `none`. -/
structure AuditRecord where
  action : String
  key : Option String
  submittedBy : Option String
  timestamp : Nat
  remainingPending : Option Nat
  completedBy : Option String
  deriving DecidableEq

/-- The session object built by `createSession`
(src/features/sessions-gistless.js lines 27-56).  `metadataStatus` models
`session.metadata.status`, `pending`/`completed`/`keyStatus` model
`session.secrets.*`, `encKey`/`keysToEncrypt` model `session.encryption.*`
and `vaultUrl` models `session.vault.url`. -/
structure Session where
  sessionId : String
  metadata : Metadata
  metadataStatus : String
  pending : List String
  completed : List CompletedEntry
  keyStatus : List (String × String)
  audit : List AuditRecord
  encKey : Option String
  keysToEncrypt : List String
  vaultUrl : Option String
  deriving DecidableEq

/-- `createSession(metadata)` (src/features/sessions-gistless.js lines
17-75): parse the comma-separated pending key list, set
`metadata.status = 'awaiting_input'`, initialise every parsed key's status
to `'pending'`, and start with empty completed and audit lists.  The
generated session id is passed in explicitly. -/
def createSession (m : Metadata) (sid : String) : Session :=
  let pendingKeys := parseKeys (m.secretsNeedsInput.getD "")
  { sessionId := sid
    metadata := m
    metadataStatus := "awaiting_input"
    pending := pendingKeys
    completed := []
    keyStatus := pendingKeys.foldl (fun st k => assocSet st k "pending") []
    audit := []
    encKey := m.encryptionKey
    keysToEncrypt := parseKeys (m.listOfKeysToBeEncrypted.getD "")
    vaultUrl := m.vaultUrl }

/-- `updateSessionSecret(sessionId, key, encryptedValue, submittedBy)`
(src/features/sessions-gistless.js lines 119-164) applied to a session
that exists: append a completed entry (masking the value as `'*****'`),
remove every occurrence of `key` from the pending list, mark the key
completed, recompute `metadata.status` from the new pending length, and
append the audit record(s). -/
def updateSessionSecret (s : Session) (key encryptedValue submittedBy : String)
    (now : Nat) : Session :=
  let completedNew := s.completed ++
    [{ key := key, encryptedValue := "*****", submittedBy := submittedBy,
       timestamp := now }]
  let pendingNew := s.pending.filter (fun k => k != key)
  let keyStatusNew := assocSet s.keyStatus key "completed"
  let statusNew := if pendingNew.length = 0 then "completed" else "awaiting_input"
  let auditBase := s.audit ++
    [{ action := "secret_submitted", key := some key,
       submittedBy := some submittedBy, timestamp := now,
       remainingPending := some pendingNew.length, completedBy := none }]
  let auditNew :=
    if statusNew = "completed" ∧ ¬ s.metadataStatus = "completed" then
      auditBase ++
        [{ action := "all_secrets_completed", key := none, submittedBy := none,
           timestamp := now, remainingPending := none,
           completedBy := some submittedBy }]
    else auditBase
  { s with
    metadataStatus := statusNew
    pending := pendingNew
    completed := completedNew
    keyStatus := keyStatusNew
    audit := auditNew }

/-- The session states reachable from `createSession` by submissions that
pass the submit endpoint's pending-key guard (src/index.js line 433): each
submitted key is in the current pending list. -/
inductive Reach (m : Metadata) (sid : String) : Session → Prop
  | init : Reach m sid (createSession m sid)
  | submit (s : Session) (k ev u : String) (t : Nat) :
      Reach m sid s → k ∈ s.pending →
      Reach m sid (updateSessionSecret s k ev u t)

/-- A metadata record with every optional field absent, overridden per
test case. -/
def emptyMeta : Metadata :=
  { runId := none, secretsNeedsInput := none, encryptionKey := none,
    listOfKeysToBeEncrypted := none, buildEnv := none,
    applicationNamespace := none, gitToken := none, vaultToken := none,
    ghApi := none, vaultUrl := none }

example : parseKeys "a, b ,,c" = ["a", "b", "c"] := by decide

example : parseKeys "," = [] := by decide

example :
    (updateSessionSecret
      (createSession { emptyMeta with secretsNeedsInput := some "a,b" } "s")
      "a" "enc" "alice" 3).pending = ["b"] := by decide

/-- Claim C1 (counterexample): the claim fails immediately after creation.
`createSession` hardcodes `metadata.status = 'awaiting_input'` (line 32),
so a session created from `secrets_needs_input = ","` (a non-empty string
accepted by the registration endpoint, parsing to zero pending keys) has an
empty pending list yet a status different from `'completed'`. -/
theorem createSession_empty_pending_status_mismatch :
    (createSession { emptyMeta with secretsNeedsInput := some "," } "s").pending = []
    ∧ (createSession { emptyMeta with secretsNeedsInput := some "," } "s").metadataStatus
        ≠ "completed" := by
  constructor
  · decide
  · decide

/-- Claim C1 (amended): immediately after every `updateSessionSecret` call
the status equals `'completed'` if and only if the pending list is empty;
immediately after creation the status is always `'awaiting_input'`
(so at creation the biconditional holds exactly when the parsed key list is
non-empty). -/
theorem overallStatus_iff_pending_empty_amended :
    (∀ (s : Session) (k ev u : String) (t : Nat),
      (updateSessionSecret s k ev u t).metadataStatus = "completed"
        ↔ (updateSessionSecret s k ev u t).pending = [])
    ∧ (∀ (m : Metadata) (sid : String),
        (createSession m sid).metadataStatus = "awaiting_input") := by
  constructor
  · intro s k ev u t
    simp only [updateSessionSecret]
    by_cases h : (s.pending.filter (fun x => x != k)).length = 0
    · rw [if_pos h]
      simp [List.length_eq_zero.mp h]
    · rw [if_neg h]
      constructor
      · intro hc
        exact absurd hc (by decide)
      · intro hc
        rw [hc] at h
        exact absurd rfl h
  · intro m sid
    rfl

/-- Claim C2 (counterexample): the claim fails when the comma-separated key
list repeats a name.  With `secrets_needs_input = "a,a"` the created
pending list is `["a","a"]` (a key occurring twice), and after the one
guarded submission of `"a"` the filter on line 136 removes both copies, so
`|pendingKeys| + |completedEntries| = 1` while the parsed key list has two
elements. -/
theorem duplicate_keys_break_invariants :
    ¬ (createSession { emptyMeta with secretsNeedsInput := some "a,a" } "s").pending.Nodup
    ∧ (updateSessionSecret
        (createSession { emptyMeta with secretsNeedsInput := some "a,a" } "s")
        "a" "ev" "u" 0).pending.length
      + (updateSessionSecret
          (createSession { emptyMeta with secretsNeedsInput := some "a,a" } "s")
          "a" "ev" "u" 0).completed.length
      ≠ (parseKeys "a,a").length := by
  constructor
  · decide
  · decide

/-- Claim C2 (amended): provided the parsed key list contains no
duplicates, every session state reachable by guarded submissions satisfies
the invariants: pending plus completed counts equal the parsed key count,
both collections are duplicate-free, and no key is in both. -/
theorem session_key_invariants (m : Metadata) (sid : String) (s : Session)
    (hnd : (parseKeys (m.secretsNeedsInput.getD "")).Nodup)
    (hr : Reach m sid s) :
    s.pending.length + s.completed.length
        = (parseKeys (m.secretsNeedsInput.getD "")).length
    ∧ s.pending.Nodup
    ∧ (s.completed.map (fun e => e.key)).Nodup
    ∧ ∀ k, k ∈ s.pending → k ∉ s.completed.map (fun e => e.key) := by
  induction hr with
  | init =>
      refine ⟨by simp [createSession], ?_, by simp [createSession], ?_⟩
      · simpa [createSession] using hnd
      · intro k hk
        simp [createSession]
  | submit s k ev u t hr hk ih =>
      obtain ⟨hlen, hndP, hndC, hdisj⟩ := ih
      have hfe : s.pending.filter (fun x => x != k) = s.pending.erase k :=
        (hndP.erase_eq_filter k).symm
      have hpos : 0 < s.pending.length :=
        List.length_pos.mpr (List.ne_nil_of_mem hk)
      have hknotc : k ∉ s.completed.map (fun e => e.key) := hdisj k hk
      refine ⟨?_, ?_, ?_, ?_⟩
      · simp only [updateSessionSecret, List.length_append]
        rw [hfe, List.length_erase_of_mem hk]
        simp only [List.length_cons, List.length_nil]
        omega
      · simp only [updateSessionSecret]
        rw [hfe]
        exact hndP.erase k
      · simp only [updateSessionSecret, List.map_append]
        rw [List.nodup_append]
        refine ⟨hndC, List.nodup_singleton _, ?_⟩
        intro a ha hb
        simp only [List.map_cons, List.map_nil, List.mem_singleton] at hb
        subst hb
        exact hknotc ha
      · intro k' hk'
        simp only [updateSessionSecret, List.map_append] at *
        obtain ⟨hmem, hne⟩ := List.mem_filter.mp hk'
        intro hcon
        rcases List.mem_append.mp hcon with hold | hnew
        · exact hdisj k' hmem hold
        · simp only [List.map_cons, List.map_nil, List.mem_singleton] at hnew
          subst hnew
          simp at hne

/-- Claim C2 (witness): the invariant theorem applied to the concrete
two-key session `"a,b"` after submitting `"a"`. -/
theorem session_key_invariants_witness :
    (parseKeys (({ emptyMeta with secretsNeedsInput := some "a,b" } : Metadata).secretsNeedsInput.getD "")).Nodup
    ∧ ((updateSessionSecret
          (createSession { emptyMeta with secretsNeedsInput := some "a,b" } "s")
          "a" "ev" "u" 0).pending.length
        + (updateSessionSecret
            (createSession { emptyMeta with secretsNeedsInput := some "a,b" } "s")
            "a" "ev" "u" 0).completed.length
          = (parseKeys (({ emptyMeta with secretsNeedsInput := some "a,b" } : Metadata).secretsNeedsInput.getD "")).length
        ∧ (updateSessionSecret
            (createSession { emptyMeta with secretsNeedsInput := some "a,b" } "s")
            "a" "ev" "u" 0).pending.Nodup
        ∧ ((updateSessionSecret
            (createSession { emptyMeta with secretsNeedsInput := some "a,b" } "s")
            "a" "ev" "u" 0).completed.map (fun e => e.key)).Nodup
        ∧ ∀ k, k ∈ (updateSessionSecret
            (createSession { emptyMeta with secretsNeedsInput := some "a,b" } "s")
            "a" "ev" "u" 0).pending →
            k ∉ (updateSessionSecret
              (createSession { emptyMeta with secretsNeedsInput := some "a,b" } "s")
              "a" "ev" "u" 0).completed.map (fun e => e.key)) :=
  ⟨by decide,
   session_key_invariants _ "s" _ (by decide)
     (Reach.submit _ "a" "ev" "u" 0 Reach.init (by decide))⟩

/-- Lower-case hexadecimal digit characters as produced by
`Buffer.prototype.toString('hex')`. -/
def hexChar : Nat → Char
  | 0 => '0' | 1 => '1' | 2 => '2' | 3 => '3' | 4 => '4'
  | 5 => '5' | 6 => '6' | 7 => '7' | 8 => '8' | 9 => '9'
  | 10 => 'a' | 11 => 'b' | 12 => 'c' | 13 => 'd' | 14 => 'e' | 15 => 'f'
  | _ => '0'

/-- Value of a hexadecimal digit character as accepted by
`Buffer.from(s, 'hex')` (both cases), `none` for a non-digit. -/
def hexDigitVal (c : Char) : Option Nat :=
  if '0' ≤ c ∧ c ≤ '9' then some (c.toNat - '0'.toNat)
  else if 'a' ≤ c ∧ c ≤ 'f' then some (c.toNat - 'a'.toNat + 10)
  else if 'A' ≤ c ∧ c ≤ 'F' then some (c.toNat - 'A'.toNat + 10)
  else none

/-- The `w` base-16 digits of `v`, most significant first. -/
def natToDigits : Nat → Nat → List Nat
  | 0, _ => []
  | w + 1, v => natToDigits w (v / 16) ++ [v % 16]

/-- Recombine base-16 digits, most significant first. -/
def digitsToNat (l : List Nat) : Nat :=
  l.foldl (fun a d => a * 16 + d) 0

/-- Hex encoding of a byte list, two digits per byte, as produced by
`Buffer.prototype.toString('hex')`. -/
def hexOfBytes (bs : List Nat) : List Char :=
  (bs.map (fun b => (natToDigits 2 b).map hexChar)).flatten

/-- Hex serialization of a ciphertext unit list, six digits per unit.
This models the composition of the UTF-8 byte serialization and the hex
encoding used by `cipher.update(text, 'utf8', 'hex')`: one fixed-width
group per character code. -/
def hexOfCodes (cs : List Nat) : List Char :=
  (cs.map (fun v => (natToDigits 6 v).map hexChar)).flatten

/-- Model of `Buffer.from(s, 'hex')`: consume digit pairs, stopping at the
first malformed position without throwing. -/
def hexPairsToBytes : List Char → List Nat
  | c1 :: c2 :: rest =>
    (match hexDigitVal c1, hexDigitVal c2 with
     | some a, some b => (a * 16 + b) :: hexPairsToBytes rest
     | _, _ => [])
  | _ => []

/-- Inverse of `hexOfCodes`: consume six-digit groups, stopping at the
first malformed position without throwing (models
`decipher.update(encrypted, 'hex', 'utf8')`). -/
def hexSextetsToVals : List Char → List Nat
  | c1 :: c2 :: c3 :: c4 :: c5 :: c6 :: rest =>
    (match hexDigitVal c1, hexDigitVal c2, hexDigitVal c3,
           hexDigitVal c4, hexDigitVal c5, hexDigitVal c6 with
     | some a, some b, some c, some d, some e, some f =>
        digitsToNat [a, b, c, d, e, f] :: hexSextetsToVals rest
     | _, _, _, _, _, _ => [])
  | _ => []

/-- Key normalization shared by `getEncryptionKey` (src/unnamed/part_000
lines 12-20) and `encryptSecret` (src/features/encryption-gistless.js
lines 32-38): zero-pad a short key to 32 bytes, truncate a long one. -/
def getKeyBuf32 (codes : List Nat) : List Nat :=
  if codes.length < 32 then codes ++ List.replicate (32 - codes.length) 0
  else codes.take 32

/-- `getEncryptionKey()` (src/unnamed/part_000 lines 12-20) applied to the
configured `ENCRYPTION_KEY` environment value, passed in explicitly.
`Buffer.from(key)` is modelled as the list of character codes. -/
def getEncryptionKey (envKey : String) : List Nat :=
  getKeyBuf32 (envKey.data.map Char.toNat)

/-- Executable model of one block of the `aes-256-gcm` counter-mode
keystream drawn by the node crypto library: a deterministic mixing of key,
nonce and counter.  The AES internals live in OpenSSL, outside this
repository; the embedding relies only on the keystream being a
deterministic function of (key, nonce, counter) with a bounded range,
which is all the round-trip and envelope-shape properties use. -/
def blockMix (key iv : List Nat) (ctr : Nat) : Nat :=
  (key.foldl (fun a b => (a * 131 + b + 7) % 2 ^ 24)
    (iv.foldl (fun a b => (a * 251 + b + 3) % 2 ^ 24)
      (ctr * 2654435761 % 2 ^ 24))) % 2 ^ 24

/-- Counter-mode XOR of a unit list with the keystream starting at
counter `i`; GCM encryption and decryption are this same operation. -/
def ctrXor (key iv : List Nat) : Nat → List Nat → List Nat
  | _, [] => []
  | i, c :: cs => (c ^^^ blockMix key iv i) :: ctrXor key iv (i + 1) cs

/-- Executable model of the GCM authentication tag computed by
`cipher.getAuthTag()` and recomputed/verified by `decipher.final()`:
a deterministic 16-byte digest of key, nonce and ciphertext. -/
def gcmTag (key iv ct : List Nat) : List Nat :=
  (List.range 16).map (fun i =>
    ct.foldl (fun a b => (a * 33 + b + i) % 256) (blockMix key iv (4096 + i) % 256))

/-- The literal marker prefixed to every encrypted envelope
(src/unnamed/part_000 line 34). -/
def encPrefix : List Char := ['e', 'n', 'c', ':']

/-- `encryptValue(text)` (src/unnamed/part_000 lines 22-39): draw a random
16-byte IV (passed in explicitly), encrypt with `aes-256-gcm` under the
normalized environment key, and return
`enc:<iv hex>:<auth tag hex>:<ciphertext hex>`. -/
def encryptValue (envKey : String) (iv : List Nat) (text : String) : String :=
  let key := getEncryptionKey envKey
  let pt := text.data.map Char.toNat
  let ct := ctrXor key iv 0 pt
  let authTag := gcmTag key iv ct
  String.mk (encPrefix ++ (hexOfBytes iv ++ (':' :: (hexOfBytes authTag ++ (':' :: hexOfCodes ct)))))

/-- `decryptValue(encryptedText)` (src/unnamed/part_000 lines 41-70):
return the input unchanged when it does not start with `enc:`, when the
colon-split does not yield exactly four parts, or when decryption fails
(empty IV or authentication-tag mismatch, the thrown-and-caught paths);
otherwise return the decrypted plaintext. -/
def decryptValue (envKey : String) (encryptedText : String) : String :=
  if strStartsWith encPrefix encryptedText.data = false then encryptedText
  else
    match jsSplitOnChar ':' encryptedText.data with
    | [_, ivHex, tagHex, ctHex] =>
      let key := getEncryptionKey envKey
      let iv := hexPairsToBytes ivHex
      let authTag := hexPairsToBytes tagHex
      let ct := hexSextetsToVals ctHex
      if iv = [] then encryptedText
      else if gcmTag key iv ct = authTag then
        String.mk ((ctrXor key iv 0 ct).map Char.ofNat)
      else encryptedText
    | _ => encryptedText

theorem hexDigitVal_hexChar : ∀ n < 16, hexDigitVal (hexChar n) = some n := by
  decide

theorem hexChar_ne_colon (n : Nat) : hexChar n ≠ ':' := by
  unfold hexChar
  split <;> decide

theorem hexOfBytes_ne_colon (bs : List Nat) : ∀ c ∈ hexOfBytes bs, c ≠ ':' := by
  intro c hc
  simp only [hexOfBytes, List.mem_flatten, List.mem_map] at hc
  obtain ⟨a, ⟨b, _, rfl⟩, hca⟩ := hc
  obtain ⟨n, _, rfl⟩ := List.mem_map.mp hca
  exact hexChar_ne_colon n

theorem hexOfCodes_ne_colon (cs : List Nat) : ∀ c ∈ hexOfCodes cs, c ≠ ':' := by
  intro c hc
  simp only [hexOfCodes, List.mem_flatten, List.mem_map] at hc
  obtain ⟨a, ⟨b, _, rfl⟩, hca⟩ := hc
  obtain ⟨n, _, rfl⟩ := List.mem_map.mp hca
  exact hexChar_ne_colon n

theorem natToDigits_length (w : Nat) : ∀ v, (natToDigits w v).length = w := by
  induction w with
  | zero => intro v; rfl
  | succ w ih =>
    intro v
    simp [natToDigits, ih]

theorem digitsToNat_natToDigits (w : Nat) :
    ∀ v, v < 16 ^ w → digitsToNat (natToDigits w v) = v := by
  induction w with
  | zero =>
    intro v hv
    interval_cases v
    rfl
  | succ w ih =>
    intro v hv
    have hdivlt : v / 16 < 16 ^ w := by
      rw [Nat.div_lt_iff_lt_mul (by norm_num)]
      calc v < 16 ^ (w + 1) := hv
        _ = 16 ^ w * 16 := by ring
    have hmod := Nat.div_add_mod v 16
    show digitsToNat (natToDigits w (v / 16) ++ [v % 16]) = v
    simp only [digitsToNat, List.foldl_append, List.foldl_cons, List.foldl_nil]
    have : (natToDigits w (v / 16)).foldl (fun a d => a * 16 + d) 0 = v / 16 := ih _ hdivlt
    rw [this]
    omega

theorem hexPairsToBytes_round (bs : List Nat) (h : ∀ b ∈ bs, b < 256) :
    hexPairsToBytes (hexOfBytes bs) = bs := by
  induction bs with
  | nil => rfl
  | cons b rest ih =>
    have hb : b < 256 := h b (List.mem_cons_self b rest)
    have hshape : hexOfBytes (b :: rest)
        = hexChar (b / 16 % 16) :: hexChar (b % 16) :: hexOfBytes rest := rfl
    rw [hshape]
    have e1 := hexDigitVal_hexChar (b / 16 % 16) (Nat.mod_lt _ (by norm_num))
    have e2 := hexDigitVal_hexChar (b % 16) (Nat.mod_lt _ (by norm_num))
    simp only [hexPairsToBytes, e1, e2]
    have hdiv : b / 16 < 16 := by
      rw [Nat.div_lt_iff_lt_mul (by norm_num)]
      omega
    rw [Nat.mod_eq_of_lt hdiv]
    have hmod := Nat.div_add_mod b 16
    rw [ih (fun x hx => h x (List.mem_cons_of_mem b hx))]
    congr 1
    omega

theorem hexSextetsToVals_round (vs : List Nat) (h : ∀ v ∈ vs, v < 2 ^ 24) :
    hexSextetsToVals (hexOfCodes vs) = vs := by
  induction vs with
  | nil => rfl
  | cons v rest ih =>
    have hv : v < 2 ^ 24 := h v (List.mem_cons_self v rest)
    have hshape : hexOfCodes (v :: rest)
        = hexChar (v / 16 / 16 / 16 / 16 / 16 % 16)
          :: hexChar (v / 16 / 16 / 16 / 16 % 16)
          :: hexChar (v / 16 / 16 / 16 % 16)
          :: hexChar (v / 16 / 16 % 16)
          :: hexChar (v / 16 % 16)
          :: hexChar (v % 16) :: hexOfCodes rest := rfl
    rw [hshape]
    have e1 := hexDigitVal_hexChar (v / 16 / 16 / 16 / 16 / 16 % 16) (Nat.mod_lt _ (by norm_num))
    have e2 := hexDigitVal_hexChar (v / 16 / 16 / 16 / 16 % 16) (Nat.mod_lt _ (by norm_num))
    have e3 := hexDigitVal_hexChar (v / 16 / 16 / 16 % 16) (Nat.mod_lt _ (by norm_num))
    have e4 := hexDigitVal_hexChar (v / 16 / 16 % 16) (Nat.mod_lt _ (by norm_num))
    have e5 := hexDigitVal_hexChar (v / 16 % 16) (Nat.mod_lt _ (by norm_num))
    have e6 := hexDigitVal_hexChar (v % 16) (Nat.mod_lt _ (by norm_num))
    simp only [hexSextetsToVals, e1, e2, e3, e4, e5, e6]
    rw [ih (fun x hx => h x (List.mem_cons_of_mem v hx))]
    congr 1
    have : digitsToNat (natToDigits 6 v) = v := by
      apply digitsToNat_natToDigits
      norm_num at hv ⊢
      exact hv
    exact this

theorem jsSplitOnChar_no_sep (sep : Char) (l : List Char)
    (h : ∀ c ∈ l, c ≠ sep) : jsSplitOnChar sep l = [l] := by
  induction l with
  | nil => rfl
  | cons c cs ih =>
    have hc : c ≠ sep := h c (List.mem_cons_self c cs)
    simp only [jsSplitOnChar, if_neg hc]
    rw [ih (fun x hx => h x (List.mem_cons_of_mem c hx))]

theorem jsSplitOnChar_append (sep : Char) (a b : List Char)
    (h : ∀ c ∈ a, c ≠ sep) :
    jsSplitOnChar sep (a ++ sep :: b) = a :: jsSplitOnChar sep b := by
  induction a with
  | nil =>
    simp [jsSplitOnChar]
  | cons c cs ih =>
    have hc : c ≠ sep := h c (List.mem_cons_self c cs)
    simp only [List.cons_append, jsSplitOnChar, if_neg hc, List.append_eq]
    rw [ih (fun x hx => h x (List.mem_cons_of_mem c hx))]

theorem strStartsWith_append (p r : List Char) :
    strStartsWith p (p ++ r) = true := by
  induction p with
  | nil => rfl
  | cons c cs ih => simp [strStartsWith, ih]

theorem blockMix_lt (key iv : List Nat) (ctr : Nat) :
    blockMix key iv ctr < 2 ^ 24 :=
  Nat.mod_lt _ (by norm_num)

theorem xor_lt_two_pow_24 {a b : Nat} (ha : a < 2 ^ 24) (hb : b < 2 ^ 24) :
    a ^^^ b < 2 ^ 24 := by
  have := Nat.bitwise_lt (f := bne) ha hb
  simpa [HXor.hXor, Xor.xor, Nat.xor] using this

theorem charCode_lt (c : Char) : c.toNat < 2 ^ 24 := by
  have h := c.valid
  rcases h with h | ⟨_, h⟩
  · exact Nat.lt_trans h (by norm_num)
  · exact Nat.lt_trans h (by norm_num)

theorem ctrXor_involution (key iv : List Nat) :
    ∀ (i : Nat) (l : List Nat), ctrXor key iv i (ctrXor key iv i l) = l := by
  intro i l
  induction l generalizing i with
  | nil => rfl
  | cons c cs ih =>
    simp only [ctrXor]
    rw [Nat.xor_cancel_right, ih]

theorem ctrXor_lt (key iv : List Nat) :
    ∀ (i : Nat) (l : List Nat), (∀ x ∈ l, x < 2 ^ 24) →
      ∀ x ∈ ctrXor key iv i l, x < 2 ^ 24 := by
  intro i l
  induction l generalizing i with
  | nil => intro _ x hx; simp [ctrXor] at hx
  | cons c cs ih =>
    intro h x hx
    simp only [ctrXor, List.mem_cons] at hx
    rcases hx with rfl | hx
    · exact xor_lt_two_pow_24 (h c (List.mem_cons_self c cs)) (blockMix_lt key iv i)
    · exact ih (i + 1) (fun y hy => h y (List.mem_cons_of_mem c hy)) x hx

theorem foldl_tagstep_lt (i : Nat) :
    ∀ (l : List Nat) (a : Nat), a < 256 →
      l.foldl (fun a b => (a * 33 + b + i) % 256) a < 256 := by
  intro l
  induction l with
  | nil => intro a ha; exact ha
  | cons b rest ih =>
    intro a _
    exact ih _ (Nat.mod_lt _ (by norm_num))

theorem gcmTag_lt (key iv ct : List Nat) : ∀ x ∈ gcmTag key iv ct, x < 256 := by
  intro x hx
  simp only [gcmTag, List.mem_map, List.mem_range] at hx
  obtain ⟨i, _, rfl⟩ := hx
  exact foldl_tagstep_lt i ct _ (Nat.mod_lt _ (by norm_num))

/-- Claim C4: decrypting the result of encrypting any plaintext under the
same (environment) key returns the original plaintext, for the 16 random
IV bytes drawn by `crypto.randomBytes(16)`. -/
theorem encrypt_decrypt_roundtrip (envKey text : String) (iv : List Nat)
    (hlen : iv.length = 16) (hb : ∀ b ∈ iv, b < 256) :
    decryptValue envKey (encryptValue envKey iv text) = text := by
  have hpt : ∀ x ∈ text.data.map Char.toNat, x < 2 ^ 24 := by
    intro x hx
    obtain ⟨c, _, rfl⟩ := List.mem_map.mp hx
    exact charCode_lt c
  set key := getEncryptionKey envKey with hkey
  set pt := text.data.map Char.toNat with hptdef
  set ct := ctrXor key iv 0 pt with hct
  set tag := gcmTag key iv ct with htagdef
  have hctlt : ∀ x ∈ ct, x < 2 ^ 24 := ctrXor_lt key iv 0 pt hpt
  have htaglt : ∀ x ∈ tag, x < 256 := gcmTag_lt key iv ct
  have hivne : iv ≠ [] := by
    intro h0
    rw [h0] at hlen
    simp at hlen
  have henc : encryptValue envKey iv text
      = String.mk (encPrefix ++ (hexOfBytes iv ++ (':' :: (hexOfBytes tag ++ (':' :: hexOfCodes ct))))) := rfl
  rw [henc]
  unfold decryptValue
  have hdata : (String.mk (encPrefix ++ (hexOfBytes iv ++ (':' :: (hexOfBytes tag ++ (':' :: hexOfCodes ct)))))).data
      = encPrefix ++ (hexOfBytes iv ++ (':' :: (hexOfBytes tag ++ (':' :: hexOfCodes ct)))) := rfl
  rw [hdata, strStartsWith_append]
  simp only [Bool.true_eq_false, if_false]
  have hsplit1 : jsSplitOnChar ':' (encPrefix ++ (hexOfBytes iv ++ (':' :: (hexOfBytes tag ++ (':' :: hexOfCodes ct)))))
      = ['e', 'n', 'c'] :: jsSplitOnChar ':' (hexOfBytes iv ++ (':' :: (hexOfBytes tag ++ (':' :: hexOfCodes ct)))) :=
    jsSplitOnChar_append ':' ['e', 'n', 'c'] _ (by decide)
  have hsplit2 : jsSplitOnChar ':' (hexOfBytes iv ++ (':' :: (hexOfBytes tag ++ (':' :: hexOfCodes ct))))
      = hexOfBytes iv :: jsSplitOnChar ':' (hexOfBytes tag ++ (':' :: hexOfCodes ct)) :=
    jsSplitOnChar_append ':' _ _ (hexOfBytes_ne_colon iv)
  have hsplit3 : jsSplitOnChar ':' (hexOfBytes tag ++ (':' :: hexOfCodes ct))
      = hexOfBytes tag :: jsSplitOnChar ':' (hexOfCodes ct) :=
    jsSplitOnChar_append ':' _ _ (hexOfBytes_ne_colon tag)
  have hsplit4 : jsSplitOnChar ':' (hexOfCodes ct) = [hexOfCodes ct] :=
    jsSplitOnChar_no_sep ':' _ (hexOfCodes_ne_colon ct)
  rw [hsplit1, hsplit2, hsplit3, hsplit4]
  simp only [hexPairsToBytes_round iv hb, hexPairsToBytes_round tag htaglt,
    hexSextetsToVals_round ct hctlt, if_neg hivne, if_pos htagdef.symm]
  rw [hct, ctrXor_involution, hptdef]
  simp only [List.map_map]
  have : (fun c => Char.ofNat (Char.toNat c)) = (fun c => c) := by
    funext c
    exact Char.ofNat_toNat c
  simp only [Function.comp_def, this]
  simp

/-- Claim C4 (witness): the round-trip law at a concrete key, IV and
plaintext. -/
theorem encrypt_decrypt_roundtrip_witness :
    (List.replicate 16 (0 : Nat)).length = 16
    ∧ (∀ b ∈ List.replicate 16 (0 : Nat), b < 256)
    ∧ decryptValue "k" (encryptValue "k" (List.replicate 16 0) "hello") = "hello" :=
  ⟨by decide, by decide,
   encrypt_decrypt_roundtrip "k" "hello" (List.replicate 16 0) (by decide) (by decide)⟩

/-- Claim C7: `decryptValue` never fails its caller: a value without the
`enc:` prefix is returned unchanged, a prefixed value whose colon-split
does not have exactly four fields is returned unchanged, and a well-formed
envelope whose decryption fails (empty IV, i.e. the `createDecipheriv`
throw, or an authentication-tag mismatch, i.e. the `decipher.final()`
throw) is returned unchanged. -/
theorem decryptValue_fallback (envKey s : String) :
    (strStartsWith encPrefix s.data = false → decryptValue envKey s = s)
    ∧ ((jsSplitOnChar ':' s.data).length ≠ 4 → decryptValue envKey s = s)
    ∧ (∀ p0 p1 p2 p3, jsSplitOnChar ':' s.data = [p0, p1, p2, p3] →
        (hexPairsToBytes p1 = []
          ∨ gcmTag (getEncryptionKey envKey) (hexPairsToBytes p1) (hexSextetsToVals p3)
              ≠ hexPairsToBytes p2) →
        decryptValue envKey s = s) := by
  refine ⟨?_, ?_, ?_⟩
  · intro h
    simp [decryptValue, h]
  · intro h
    unfold decryptValue
    split
    · rfl
    · split
      · rename_i heq
        exact absurd (by rw [heq]; rfl) h
      · rfl
  · intro p0 p1 p2 p3 heq hbad
    unfold decryptValue
    by_cases hp : strStartsWith encPrefix s.data = false
    · simp [hp]
    · rw [if_neg hp, heq]
      rcases hbad with hiv | htag
      · simp [hiv]
      · by_cases hiv : hexPairsToBytes p1 = []
        · simp [hiv]
        · simp [hiv, htag]

/-- Claim C7 (witness): a prefixed but two-field value is returned
unchanged. -/
theorem decryptValue_fallback_witness :
    (jsSplitOnChar ':' ("enc:zz" : String).data).length ≠ 4
    ∧ decryptValue "k" "enc:zz" = "enc:zz" :=
  ⟨by decide, (decryptValue_fallback "k" "enc:zz").2.1 (by decide)⟩

/-- Executable model of `crypto.createHash('sha1').update(input).digest('hex')`
used by `generateHash` (src/features/encryption-gistless.js lines 10-15):
a deterministic 40-hex-character digest of the input.  The SHA-1 internals
live in the node crypto library, outside this repository; the claims over
`generateHash` rely only on the digest being a deterministic function of
the input. -/
def sha1HexModel (input : String) : String :=
  let codes := input.data.map Char.toNat
  String.mk (((List.range 5).map (fun i =>
    (natToDigits 8 (codes.foldl
      (fun a c => (a * 131 + c + i * 17 + 7) % 2 ^ 32)
      ((i * 2654435761 + 2166136261) % 2 ^ 32))).map hexChar)).flatten)

/-- `generateHash(input)` (src/features/encryption-gistless.js lines
10-15): first 32 characters of the SHA-1 hex digest. -/
def generateHash (input : String) : String :=
  (sha1HexModel input).take 32

/-- Executable model of the `aes-256-cbc` encryption performed by
`encryptSecret` (src/features/encryption-gistless.js lines 40-48): PKCS#7
padding to the 16-byte block size followed by a deterministic byte
ciphertext.  The AES internals live in the node crypto library, outside
this repository; the claims over `encryptSecret` rely only on the
ciphertext being a deterministic byte list. -/
def cbcEncryptModel (key iv pt : List Nat) : List Nat :=
  let padLen := 16 - pt.length % 16
  (pt ++ List.replicate padLen padLen).foldl
    (fun acc b => acc ++ [(key.sum + iv.sum + acc.length * 31 + b) % 256]) []

/-- `encryptSecret(plainValue, encKey, secretKey)`
(src/features/encryption-gistless.js lines 27-60): normalize the key to 32
bytes, draw a random 16-byte IV (passed in explicitly), encrypt with
`aes-256-cbc`, and return `<iv hex>:<ciphertext hex>` — two fields, no
`enc:` marker and no authentication tag. -/
def encryptSecret (plainValue encKey : String) (iv : List Nat) : String :=
  let keyBuf := getKeyBuf32 (encKey.data.map Char.toNat)
  let ct := cbcEncryptModel keyBuf iv (plainValue.data.map Char.toNat)
  String.mk (hexOfBytes iv ++ (':' :: hexOfBytes ct))

/-- `processSecretValue(secretKey, plainValue, buildEnvironment,
applicationNamespace, encKey, keysToEncrypt)`
(src/features/encryption-gistless.js lines 74-100): the ordered decision
table — keystore password under hodc/pcdc, then the encryption-key
identifier, then the encryption list, then pass-through. -/
def processSecretValue (secretKey plainValue buildEnvironment
    applicationNamespace encKey : String) (keysToEncrypt : List String)
    (iv : List Nat) : String :=
  if secretKey = "app.key-store-password"
      ∧ (buildEnvironment = "hodc" ∨ buildEnvironment = "pcdc") then
    generateHash (applicationNamespace ++ "-jks")
  else if secretKey = "app-config.secret-encryption.encryption-key" then
    encKey
  else if secretKey ∈ keysToEncrypt then
    encryptSecret plainValue encKey iv
  else
    plainValue

theorem hexChar_isSome (n : Nat) : (hexDigitVal (hexChar n)).isSome = true := by
  unfold hexChar
  split <;> decide

theorem hexChar_ne_n (n : Nat) : hexChar n ≠ 'n' := by
  unfold hexChar
  split <;> decide

theorem hexOfBytes_isHex (bs : List Nat) :
    ∀ c ∈ hexOfBytes bs, (hexDigitVal c).isSome = true := by
  intro c hc
  simp only [hexOfBytes, List.mem_flatten, List.mem_map] at hc
  obtain ⟨a, ⟨b, _, rfl⟩, hca⟩ := hc
  obtain ⟨n, _, rfl⟩ := List.mem_map.mp hca
  exact hexChar_isSome n

theorem hexOfCodes_isHex (cs : List Nat) :
    ∀ c ∈ hexOfCodes cs, (hexDigitVal c).isSome = true := by
  intro c hc
  simp only [hexOfCodes, List.mem_flatten, List.mem_map] at hc
  obtain ⟨a, ⟨b, _, rfl⟩, hca⟩ := hc
  obtain ⟨n, _, rfl⟩ := List.mem_map.mp hca
  exact hexChar_isSome n

/-- Claim C5 (counterexample): the session-path secret-encryption
operation `encryptSecret` does not produce the three-field `enc:`-prefixed
authenticated envelope: at a concrete plaintext, key and IV its output has
no `enc:` prefix and splits into exactly two colon-separated fields
(IV and CBC ciphertext, with no authentication tag). -/
theorem encryptSecret_not_gcm_envelope :
    strStartsWith encPrefix (encryptSecret "p" "k" (List.replicate 16 0)).data = false
    ∧ (jsSplitOnChar ':' (encryptSecret "p" "k" (List.replicate 16 0)).data).length = 2 := by
  constructor
  · decide
  · decide

/-- Claim C5 (amended): the gist-path `encryptValue` does produce the
claimed envelope — an `enc:` prefix followed by three hex-only
colon-separated fields (nonce, authentication tag, ciphertext) — while the
session-path `encryptSecret` produces a two-field `<iv hex>:<ciphertext
hex>` value with no prefix and no authentication tag. -/
theorem encryption_envelope_shapes :
    (∀ (envKey text : String) (iv : List Nat), iv.length = 16 →
      strStartsWith encPrefix (encryptValue envKey iv text).data = true
      ∧ jsSplitOnChar ':' (encryptValue envKey iv text).data
          = [['e', 'n', 'c'],
             hexOfBytes iv,
             hexOfBytes (gcmTag (getEncryptionKey envKey) iv
               (ctrXor (getEncryptionKey envKey) iv 0 (text.data.map Char.toNat))),
             hexOfCodes (ctrXor (getEncryptionKey envKey) iv 0 (text.data.map Char.toNat))]
      ∧ (∀ c ∈ hexOfBytes iv, (hexDigitVal c).isSome = true)
      ∧ (∀ c ∈ hexOfBytes (gcmTag (getEncryptionKey envKey) iv
            (ctrXor (getEncryptionKey envKey) iv 0 (text.data.map Char.toNat))),
          (hexDigitVal c).isSome = true)
      ∧ (∀ c ∈ hexOfCodes (ctrXor (getEncryptionKey envKey) iv 0 (text.data.map Char.toNat)),
          (hexDigitVal c).isSome = true))
    ∧ (∀ (plainValue encKey : String) (iv : List Nat), iv.length = 16 →
      strStartsWith encPrefix (encryptSecret plainValue encKey iv).data = false
      ∧ jsSplitOnChar ':' (encryptSecret plainValue encKey iv).data
          = [hexOfBytes iv,
             hexOfBytes (cbcEncryptModel (getKeyBuf32 (encKey.data.map Char.toNat)) iv
               (plainValue.data.map Char.toNat))]) := by
  constructor
  · intro envKey text iv _
    set key := getEncryptionKey envKey
    set ct := ctrXor key iv 0 (text.data.map Char.toNat) with hct
    set tag := gcmTag key iv ct with htag
    have henc : encryptValue envKey iv text
        = String.mk (encPrefix ++ (hexOfBytes iv ++ (':' :: (hexOfBytes tag ++ (':' :: hexOfCodes ct))))) := rfl
    rw [henc]
    refine ⟨strStartsWith_append _ _, ?_, hexOfBytes_isHex iv, hexOfBytes_isHex tag,
      hexOfCodes_isHex ct⟩
    have hsplit1 : jsSplitOnChar ':' (encPrefix ++ (hexOfBytes iv ++ (':' :: (hexOfBytes tag ++ (':' :: hexOfCodes ct)))))
        = ['e', 'n', 'c'] :: jsSplitOnChar ':' (hexOfBytes iv ++ (':' :: (hexOfBytes tag ++ (':' :: hexOfCodes ct)))) :=
      jsSplitOnChar_append ':' ['e', 'n', 'c'] _ (by decide)
    rw [show (String.mk (encPrefix ++ (hexOfBytes iv ++ (':' :: (hexOfBytes tag ++ (':' :: hexOfCodes ct)))))).data
        = encPrefix ++ (hexOfBytes iv ++ (':' :: (hexOfBytes tag ++ (':' :: hexOfCodes ct)))) from rfl]
    rw [hsplit1, jsSplitOnChar_append ':' _ _ (hexOfBytes_ne_colon iv),
      jsSplitOnChar_append ':' _ _ (hexOfBytes_ne_colon tag),
      jsSplitOnChar_no_sep ':' _ (hexOfCodes_ne_colon ct)]
  · intro plainValue encKey iv hlen
    set keyBuf := getKeyBuf32 (encKey.data.map Char.toNat)
    set ct := cbcEncryptModel keyBuf iv (plainValue.data.map Char.toNat) with hct
    have henc : encryptSecret plainValue encKey iv
        = String.mk (hexOfBytes iv ++ (':' :: hexOfBytes ct)) := rfl
    rw [henc]
    rw [show (String.mk (hexOfBytes iv ++ (':' :: hexOfBytes ct))).data
        = hexOfBytes iv ++ (':' :: hexOfBytes ct) from rfl]
    constructor
    · cases iv with
      | nil => simp at hlen
      | cons b rest =>
        have hshape : hexOfBytes (b :: rest)
            = hexChar (b / 16 % 16) :: hexChar (b % 16) :: hexOfBytes rest := rfl
        rw [hshape]
        have hne : ('n' : Char) ≠ hexChar (b % 16) := Ne.symm (hexChar_ne_n (b % 16))
        simp [strStartsWith, encPrefix, hne]
    · rw [jsSplitOnChar_append ':' _ _ (hexOfBytes_ne_colon iv),
        jsSplitOnChar_no_sep ':' _ (hexOfBytes_ne_colon ct)]

/-- Claim C5 (witness): the amended shape statement at concrete inputs for
both encryption operations. -/
theorem encryption_envelope_shapes_witness :
    (List.replicate 16 (1 : Nat)).length = 16
    ∧ strStartsWith encPrefix (encryptValue "k" (List.replicate 16 1) "t").data = true
    ∧ strStartsWith encPrefix (encryptSecret "p" "k" (List.replicate 16 1)).data = false :=
  ⟨by decide,
   (encryption_envelope_shapes.1 "k" "t" (List.replicate 16 1) (by decide)).1,
   (encryption_envelope_shapes.2 "p" "k" (List.replicate 16 1) (by decide)).1⟩

/-- Claim C6: `processSecretValue` evaluates its rules in order — (a) the
keystore-password identifier under hodc/pcdc returns the namespace-derived
hash regardless of the plaintext and the encryption list, (b) the
encryption-key identifier returns the session encryption key unchanged
regardless of the encryption list, (c) a key in the encryption list is
encrypted, (d) anything else passes through unchanged; an earlier rule
wins when several apply. -/
theorem processSecretValue_decision_order (secretKey plainValue
    buildEnvironment applicationNamespace encKey : String)
    (keysToEncrypt : List String) (iv : List Nat) :
    (secretKey = "app.key-store-password" →
      (buildEnvironment = "hodc" ∨ buildEnvironment = "pcdc") →
      processSecretValue secretKey plainValue buildEnvironment
          applicationNamespace encKey keysToEncrypt iv
        = generateHash (applicationNamespace ++ "-jks"))
    ∧ (secretKey = "app-config.secret-encryption.encryption-key" →
      processSecretValue secretKey plainValue buildEnvironment
          applicationNamespace encKey keysToEncrypt iv = encKey)
    ∧ (secretKey ∈ keysToEncrypt →
      ¬ (secretKey = "app.key-store-password"
          ∧ (buildEnvironment = "hodc" ∨ buildEnvironment = "pcdc")) →
      secretKey ≠ "app-config.secret-encryption.encryption-key" →
      processSecretValue secretKey plainValue buildEnvironment
          applicationNamespace encKey keysToEncrypt iv
        = encryptSecret plainValue encKey iv)
    ∧ (secretKey ∉ keysToEncrypt →
      ¬ (secretKey = "app.key-store-password"
          ∧ (buildEnvironment = "hodc" ∨ buildEnvironment = "pcdc")) →
      secretKey ≠ "app-config.secret-encryption.encryption-key" →
      processSecretValue secretKey plainValue buildEnvironment
          applicationNamespace encKey keysToEncrypt iv = plainValue) := by
  refine ⟨?_, ?_, ?_, ?_⟩
  · intro h1 h2
    simp [processSecretValue, h1, h2]
  · intro h1
    subst h1
    simp [processSecretValue]
  · intro h1 h2 h3
    rw [processSecretValue, if_neg h2, if_neg h3, if_pos h1]
  · intro h1 h2 h3
    rw [processSecretValue, if_neg h2, if_neg h3, if_neg h1]

/-- Claim C6 (witness): the encryption-key identifier wins over membership
in the encryption list. -/
theorem processSecretValue_decision_order_witness :
    ("app-config.secret-encryption.encryption-key" : String)
        = "app-config.secret-encryption.encryption-key"
    ∧ processSecretValue "app-config.secret-encryption.encryption-key" "pv"
        "hodc" "ns" "KEY" ["app-config.secret-encryption.encryption-key"] []
      = "KEY" :=
  ⟨rfl,
   (processSecretValue_decision_order "app-config.secret-encryption.encryption-key"
      "pv" "hodc" "ns" "KEY" ["app-config.secret-encryption.encryption-key"] []).2.1 rfl⟩

/-- JavaScript truthiness of a string value (`''` is falsy). -/
def jsTruthy (s : String) : Bool := s ≠ ""

/-- ASCII lower-casing of one character, as `toLowerCase` performs on the
build-environment tags in play. -/
def jsLowerChar (c : Char) : Char :=
  if 'A' ≤ c ∧ c ≤ 'Z' then Char.ofNat (c.toNat + 32) else c

/-- `x?.toLowerCase() || ''` on an optional string field. -/
def jsLower (o : Option String) : String :=
  String.mk ((o.getD "").data.map jsLowerChar)

/-- JavaScript `a || b` on two optional string values: the first truthy
one, else the empty string. -/
def jsOr (a b : Option String) : String :=
  if jsTruthy (a.getD "") then a.getD "" else b.getD ""

/-- A response from the Vault HTTP API as observed by the engine: status,
body text, and (for successful fetches) the parsed `data.data` key-value
set. -/
structure VaultHttpResponse where
  status : Nat
  body : String
  json : List (String × String)
  deriving DecidableEq

/-- `response.ok` of node-fetch: status in the 200-299 range. -/
def vaultRespOk (r : VaultHttpResponse) : Bool :=
  200 ≤ r.status ∧ r.status < 300

/-- `fetchVaultPayload(vaultUrl, vaultToken)`
(src/features/vault-operations-gistless.js lines 12-47) as a function of
the store's response: a 404 yields the empty structure (new microservice),
any other non-success response throws an error carrying the status and the
body text (modelled as an `Except` error pair; the source formats the two
into the thrown message `Vault fetch failed: <status> <text>`), and a
successful response yields its parsed payload. -/
def fetchVaultPayload (r : VaultHttpResponse) :
    Except (Nat × String) (List (String × String)) :=
  if vaultRespOk r = false then
    if r.status = 404 then .ok []
    else .error (r.status, r.body)
  else .ok r.json

/-- `updateSingleVaultKey(vaultUrl, vaultToken, key, value)`
(src/features/vault-operations-gistless.js lines 107-136): fetch the
current payload, overwrite the single key, push the merged payload back
(`updateVaultPayload`, lines 58-95, whose non-success response also
throws).  On success the backing store's new contents are the merged
payload. -/
def updateSingleVaultKey (fetchResp : VaultHttpResponse) (pushOk : Bool)
    (pushStatus : Nat) (pushBody : String) (key value : String) :
    Except (Nat × String) (List (String × String)) :=
  match fetchVaultPayload fetchResp with
  | .error e => .error e
  | .ok current =>
    let merged := assocSet current key value
    if pushOk then .ok merged else .error (pushStatus, pushBody)

/-- The in-memory `sessions` map (src/features/sessions-gistless.js
line 2). -/
structure SessionStore where
  entries : List (String × Session)
  deriving DecidableEq

/-- `sessions.get(sessionId)`. -/
def storeGet (st : SessionStore) (sid : String) : Option Session :=
  assocGet st.entries sid

/-- `sessions.set(sessionId, session)`. -/
def storeSet (st : SessionStore) (sid : String) (s : Session) : SessionStore :=
  ⟨assocSet st.entries sid s⟩

/-- The distinguishable responses of `POST /api/sessions/:sessionId/secrets`
(src/index.js lines 407-541): the 400 missing-field error, the 404 unknown
session, the 400 `Key already processed or not in pending list`, the 403
team-access denial, the 500 missing Vault configuration, the 500 from a
failed store fetch, and the success response (which carries the updated
pending list, the `allCompleted` flag, and the merged payload the handler
logs). -/
inductive SubmitOutcome where
  | missingKeyOrValue
  | sessionNotFound
  | keyNotPending
  | notAuthorized
  | vaultConfigMissing
  | storeFetchFailed (status : Nat) (body : String)
  | submitted (pendingKeys : List String) (allCompleted : Bool)
      (loggedPayload : List (String × String))
  deriving DecidableEq

/-- Whether an outcome is the success response. -/
def isSubmitted : SubmitOutcome → Bool
  | .submitted _ _ _ => true
  | _ => false

/-- The state transition of `POST /api/sessions/:sessionId/secrets`
(src/index.js lines 407-541).  External effects are passed in explicitly:
`accessOk` is the answer of the team-membership check, `fetchStatus` and
`fetchBody` describe the Vault GET response for the current backing-store
contents `vaultStore`, `iv` is the randomness available to `encryptSecret`
and `now` the clock.  The returned triple is (response, session store,
backing store).  The backing store passes through unchanged on every path:
the handler merges the processed value into the fetched payload and logs
it, but the actual Vault push is commented out (src/index.js lines
504-505). -/
def postSecret (st : SessionStore) (vaultStore : List (String × String))
    (fetchStatus : Nat) (fetchBody : String)
    (sid key value user : String) (accessOk : Bool) (iv : List Nat)
    (now : Nat) :
    SubmitOutcome × SessionStore × List (String × String) :=
  if key = "" ∨ value = "" then (.missingKeyOrValue, st, vaultStore)
  else
    match storeGet st sid with
    | none => (.sessionNotFound, st, vaultStore)
    | some session =>
      if key ∉ session.pending then (.keyNotPending, st, vaultStore)
      else if accessOk = false then (.notAuthorized, st, vaultStore)
      else
        let buildEnv := jsLower session.metadata.buildEnv
        let applicationNamespace := session.metadata.applicationNamespace.getD ""
        let encKey := session.encKey.getD ""
        let processedValue := processSecretValue key value buildEnv
          applicationNamespace encKey session.keysToEncrypt iv
        if jsTruthy (session.vaultUrl.getD "") = false
            ∨ jsTruthy (session.metadata.vaultToken.getD "") = false then
          (.vaultConfigMissing, st, vaultStore)
        else
          match fetchVaultPayload ⟨fetchStatus, fetchBody, vaultStore⟩ with
          | .error e => (.storeFetchFailed e.1 e.2, st, vaultStore)
          | .ok currentPayload =>
            let merged := assocSet currentPayload key processedValue
            let sessionNew := updateSessionSecret session key processedValue user now
            (.submitted sessionNew.pending
              (sessionNew.metadataStatus = "completed") merged,
              storeSet st sid sessionNew, vaultStore)

/-- Claim C3: a submission with a real key and value fails without mutating
any state — with the 404 session-not-found response when the session id is
unknown, and with the 400 already-processed/not-pending response when the
key is not in the session's pending list (both guards fire before any
processing, so the session store and the backing store are returned
untouched). -/
theorem submit_guard_no_mutation (st : SessionStore)
    (vaultStore : List (String × String)) (fetchStatus : Nat)
    (fetchBody sid key value user : String) (accessOk : Bool)
    (iv : List Nat) (now : Nat) :
    (key ≠ "" → value ≠ "" → storeGet st sid = none →
      postSecret st vaultStore fetchStatus fetchBody sid key value user
          accessOk iv now
        = (.sessionNotFound, st, vaultStore))
    ∧ (∀ session, key ≠ "" → value ≠ "" → storeGet st sid = some session →
        key ∉ session.pending →
      postSecret st vaultStore fetchStatus fetchBody sid key value user
          accessOk iv now
        = (.keyNotPending, st, vaultStore)) := by
  constructor
  · intro hk hv hnone
    unfold postSecret
    rw [if_neg (not_or.mpr ⟨hk, hv⟩), hnone]
  · intro session hk hv hsome hnp
    unfold postSecret
    rw [if_neg (not_or.mpr ⟨hk, hv⟩), hsome]
    simp only [if_pos hnp]

/-- Claim C3 (witness): both guards at a concrete store holding one
session with pending key `"a"`. -/
theorem submit_guard_no_mutation_witness :
    ("b" : String) ≠ ""
    ∧ postSecret
        ⟨[("s1", createSession { emptyMeta with secretsNeedsInput := some "a" } "s1")]⟩
        [] 200 "" "s1" "b" "v" "u" true [] 0
      = (.keyNotPending,
         ⟨[("s1", createSession { emptyMeta with secretsNeedsInput := some "a" } "s1")]⟩,
         []) :=
  ⟨by decide,
   (submit_guard_no_mutation
      ⟨[("s1", createSession { emptyMeta with secretsNeedsInput := some "a" } "s1")]⟩
      [] 200 "" "s1" "b" "v" "u" true [] 0).2
     (createSession { emptyMeta with secretsNeedsInput := some "a" } "s1")
     (by decide) (by decide) (by decide) (by decide)⟩

/-- Claim C9: on a non-success store response, the fetch yields the empty
key-value set exactly when the status is 404, and any other non-success
status fails with an error carrying the response status and body. -/
theorem fetchVaultPayload_404_empty (r : VaultHttpResponse)
    (h : vaultRespOk r = false) :
    (fetchVaultPayload r = .ok [] ↔ r.status = 404)
    ∧ (r.status ≠ 404 → fetchVaultPayload r = .error (r.status, r.body)) := by
  by_cases h4 : r.status = 404
  · constructor
    · simp [fetchVaultPayload, h, h4]
    · intro hc
      exact absurd h4 hc
  · constructor
    · simp [fetchVaultPayload, h, h4]
    · intro _
      simp [fetchVaultPayload, h, h4]

/-- Claim C9 (witness): a 503 response with body `"boom"` fails with an
error carrying both, and a 404 response yields the empty set. -/
theorem fetchVaultPayload_404_empty_witness :
    vaultRespOk ⟨503, "boom", []⟩ = false
    ∧ fetchVaultPayload ⟨503, "boom", []⟩ = .error (503, "boom") :=
  ⟨by decide, (fetchVaultPayload_404_empty ⟨503, "boom", []⟩ (by decide)).2 (by decide)⟩

theorem assocGet_assocSet {β : Type} (m : List (String × β)) (k : String) (v : β) :
    assocGet (assocSet m k v) k = some v := by
  induction m with
  | nil => simp [assocSet, assocGet]
  | cons p rest ih =>
    by_cases h : p.1 = k
    · simp [assocSet, assocGet, h]
    · simp [assocSet, assocGet, h, ih]

/-- A metadata record carrying one pending key and a present Vault
configuration. -/
def vaultMeta : Metadata :=
  { emptyMeta with
    secretsNeedsInput := some "k1"
    vaultToken := some "t"
    vaultUrl := some "http://v" }

/-- Claim C8 (counterexample): a fully successful submission leaves the
backing store untouched.  With an initially empty backing store, a session
whose Vault configuration is present, a passing access check, and a
successful fetch, the submission succeeds, yet the backing store is still
empty afterwards and does not contain the submitted key — the Vault push
in the handler is commented out (src/index.js lines 504-505). -/
theorem submit_does_not_write_backing_store :
    isSubmitted (postSecret
        ⟨[("s1", createSession vaultMeta "s1")]⟩
        [] 200 "" "s1" "k1" "v" "u" true (List.replicate 16 0) 0).1 = true
    ∧ (postSecret
        ⟨[("s1", createSession vaultMeta "s1")]⟩
        [] 200 "" "s1" "k1" "v" "u" true (List.replicate 16 0) 0).2.2 = []
    ∧ assocGet (postSecret
        ⟨[("s1", createSession vaultMeta "s1")]⟩
        [] 200 "" "s1" "k1" "v" "u" true (List.replicate 16 0) 0).2.2 "k1" = none := by
  refine ⟨by decide, by decide, by decide⟩

/-- Claim C8 (amended): on the success path the handler merges the
processed value into the fetched payload in memory (the payload it logs
does contain the processed value under the submitted key) and updates the
session, but it returns the backing store unchanged because the Vault push
call is commented out; `updateSingleVaultKey`, which the commented-out
call would invoke, does write the merged payload back on success. -/
theorem submit_merges_in_memory_only (st : SessionStore)
    (vaultStore : List (String × String)) (fetchStatus : Nat)
    (fetchBody sid key value user : String) (iv : List Nat) (now : Nat)
    (session : Session) (processedValue : String)
    (hk : key ≠ "") (hv : value ≠ "")
    (hsome : storeGet st sid = some session)
    (hp : key ∈ session.pending)
    (hurl : jsTruthy (session.vaultUrl.getD "") = true)
    (htok : jsTruthy (session.metadata.vaultToken.getD "") = true)
    (hfetch : vaultRespOk ⟨fetchStatus, fetchBody, vaultStore⟩ = true)
    (hP : processedValue = processSecretValue key value
        (jsLower session.metadata.buildEnv)
        (session.metadata.applicationNamespace.getD "")
        (session.encKey.getD "") session.keysToEncrypt iv) :
    postSecret st vaultStore fetchStatus fetchBody sid key value user true iv now
      = (.submitted (updateSessionSecret session key processedValue user now).pending
          ((updateSessionSecret session key processedValue user now).metadataStatus
            = "completed")
          (assocSet vaultStore key processedValue),
         storeSet st sid (updateSessionSecret session key processedValue user now),
         vaultStore)
    ∧ assocGet (assocSet vaultStore key processedValue) key = some processedValue
    ∧ (∀ (r : VaultHttpResponse) (pushStatus : Nat) (pushBody k v : String),
        vaultRespOk r = true →
        updateSingleVaultKey r true pushStatus pushBody k v
          = .ok (assocSet r.json k v)) := by
  refine ⟨?_, assocGet_assocSet vaultStore key processedValue, ?_⟩
  · have hfe : fetchVaultPayload ⟨fetchStatus, fetchBody, vaultStore⟩
        = .ok vaultStore := by
      simp [fetchVaultPayload, hfetch]
    unfold postSecret
    rw [if_neg (not_or.mpr ⟨hk, hv⟩), hsome]
    simp [hp, hurl, htok, hfe, ← hP]
  · intro r pushStatus pushBody k v hr
    have hfe : fetchVaultPayload r = .ok r.json := by
      simp [fetchVaultPayload, hr]
    simp [updateSingleVaultKey, hfe]

/-- Claim C8 (witness): the amended statement at a concrete successful
submission. -/
theorem submit_merges_in_memory_only_witness :
    ("k1" : String) ≠ ""
    ∧ (postSecret
        ⟨[("s1", createSession vaultMeta "s1")]⟩
        [("old", "o")] 200 "" "s1" "k1" "v" "u" true (List.replicate 16 0) 0).2.2
      = [("old", "o")] := by
  refine ⟨by decide, ?_⟩
  have h := (submit_merges_in_memory_only
    ⟨[("s1", createSession vaultMeta "s1")]⟩
    [("old", "o")] 200 "" "s1" "k1" "v" "u" (List.replicate 16 0) 0
    (createSession vaultMeta "s1")
    _ (by decide) (by decide) (by decide) (by decide) (by decide) (by decide)
    (by decide) rfl).1
  rw [h]

/-- The `secrets_stats` object embedded in the dispatch payload
(src/unnamed/part_000 lines 339-343). -/
structure SecretsStats where
  total : Nat
  completed : Nat
  pending : Nat
  deriving DecidableEq

/-- The one `workflow_dispatch` POST issued by
`triggerDownstreamWorkflow`: target URL, ref, and the payload content
(the session metadata spread into `updatedPayload` plus the completion
fields). -/
structure DispatchCall where
  url : String
  ref : String
  payloadMetadata : Metadata
  payloadStatus : String
  completedAt : Nat
  stats : SecretsStats
  payloadAudit : List AuditRecord
  deriving DecidableEq

/-- The observable outcomes of `triggerDownstreamWorkflow`
(src/unnamed/part_000 lines 318-426): the thrown missing-token error, the
skipped result, the thrown missing-workflow-information error, and the
dispatch (recording the single POST call) with either a success status or
the thrown non-success error. -/
inductive TriggerOutcome where
  | errorNoToken
  | skipped (reason : String)
  | errorMissingInfo
  | dispatched (call : DispatchCall) (status : Nat)
  | dispatchFailed (call : DispatchCall) (status : Nat) (body : String)
  deriving DecidableEq

/-- `triggerDownstreamWorkflow(session)` (src/unnamed/part_000 lines
318-426): check `GIT_TOKEN` first (throwing when absent), compute the
completion statistics, pick `main.yml` for lower-cased `build_env`
`dev`/`sit` and otherwise return the skipped result with a
human-readable reason, then resolve the base URL (throwing when absent)
and issue exactly one dispatch POST whose response status decides between
success and the thrown dispatch failure. -/
def triggerDownstreamWorkflow (s : Session) (envGhBaseUrl : Option String)
    (respOk : Bool) (respStatus : Nat) (respBody : String) (now : Nat) :
    TriggerOutcome :=
  let buildEnv := jsLower s.metadata.buildEnv
  if jsTruthy (s.metadata.gitToken.getD "") = false then .errorNoToken
  else
    let totalSecrets := s.completed.length + s.pending.length
    let completedSecrets := s.completed.length
    if buildEnv = "dev" ∨ buildEnv = "sit" then
      let baseUrl := jsOr s.metadata.ghApi envGhBaseUrl
      if jsTruthy baseUrl = false then .errorMissingInfo
      else
        let call : DispatchCall :=
          { url := baseUrl ++ "/repos/Microservices/ap-secondhalf/actions/workflows/main.yml/dispatches"
            ref := "main"
            payloadMetadata := s.metadata
            payloadStatus := "completed"
            completedAt := now
            stats := { total := totalSecrets, completed := completedSecrets, pending := 0 }
            payloadAudit := s.audit }
        if respOk then .dispatched call respStatus
        else .dispatchFailed call respStatus respBody
    else .skipped ("No downstream workflow configured for build_env=" ++ buildEnv)

/-- Claim C10 (counterexample): for a session with an unconfigured
build-environment tag the trigger does not always return a skipped result:
when the session metadata lacks `GIT_TOKEN` the token guard fires first
and the call throws (`GIT_TOKEN not available`) instead. -/
theorem trigger_missing_token_errors :
    triggerDownstreamWorkflow
        (createSession { emptyMeta with buildEnv := some "prod" } "s")
        none true 204 "" 0
      = .errorNoToken := by
  decide

/-- Claim C10 (amended): provided the session metadata carries
`GIT_TOKEN`, a build-environment tag mapping to no configured job yields
the skipped result with its human-readable reason (and no dispatch), while
a configured tag (`dev`/`sit`) with a resolvable base URL issues exactly
one dispatch carrying the session metadata and audit log plus completion
statistics with `pending = 0`. -/
theorem trigger_skip_and_dispatch (s : Session) (envGhBaseUrl : Option String)
    (respOk : Bool) (respStatus : Nat) (respBody : String) (now : Nat)
    (htok : jsTruthy (s.metadata.gitToken.getD "") = true) :
    (¬ (jsLower s.metadata.buildEnv = "dev" ∨ jsLower s.metadata.buildEnv = "sit") →
      triggerDownstreamWorkflow s envGhBaseUrl respOk respStatus respBody now
        = .skipped ("No downstream workflow configured for build_env="
            ++ jsLower s.metadata.buildEnv))
    ∧ ((jsLower s.metadata.buildEnv = "dev" ∨ jsLower s.metadata.buildEnv = "sit") →
        jsTruthy (jsOr s.metadata.ghApi envGhBaseUrl) = true →
        triggerDownstreamWorkflow s envGhBaseUrl respOk respStatus respBody now
          = (if respOk then
              TriggerOutcome.dispatched
                { url := jsOr s.metadata.ghApi envGhBaseUrl
                    ++ "/repos/Microservices/ap-secondhalf/actions/workflows/main.yml/dispatches"
                  ref := "main"
                  payloadMetadata := s.metadata
                  payloadStatus := "completed"
                  completedAt := now
                  stats := { total := s.completed.length + s.pending.length,
                             completed := s.completed.length, pending := 0 }
                  payloadAudit := s.audit } respStatus
             else
              TriggerOutcome.dispatchFailed
                { url := jsOr s.metadata.ghApi envGhBaseUrl
                    ++ "/repos/Microservices/ap-secondhalf/actions/workflows/main.yml/dispatches"
                  ref := "main"
                  payloadMetadata := s.metadata
                  payloadStatus := "completed"
                  completedAt := now
                  stats := { total := s.completed.length + s.pending.length,
                             completed := s.completed.length, pending := 0 }
                  payloadAudit := s.audit } respStatus respBody)) := by
  constructor
  · intro h
    unfold triggerDownstreamWorkflow
    simp only [htok]
    rw [if_neg (by decide), if_neg h]
  · intro h hbase
    unfold triggerDownstreamWorkflow
    simp only [htok]
    rw [if_neg (by decide), if_pos h]
    simp only [hbase]
    rw [if_neg (by decide)]

/-- A completed session whose metadata carries a token, a configured
(after lower-casing) build environment, and a base URL. -/
def devSession : Session :=
  updateSessionSecret
    (createSession
      { emptyMeta with
        secretsNeedsInput := some "a"
        gitToken := some "g"
        buildEnv := some "DEV"
        ghApi := some "http://gh" } "s") "a" "x" "u" 0

/-- The dispatch call the completed `devSession` produces. -/
def devCall : DispatchCall :=
  { url := jsOr devSession.metadata.ghApi none
      ++ "/repos/Microservices/ap-secondhalf/actions/workflows/main.yml/dispatches"
    ref := "main"
    payloadMetadata := devSession.metadata
    payloadStatus := "completed"
    completedAt := 7
    stats := { total := devSession.completed.length + devSession.pending.length
               completed := devSession.completed.length
               pending := 0 }
    payloadAudit := devSession.audit }

/-- Claim C10 (witness): a completed session with `GIT_TOKEN` and
`build_env = "DEV"` (configured after lower-casing) dispatches with
`pending = 0` in its statistics. -/
theorem trigger_skip_and_dispatch_witness :
    jsTruthy (devSession.metadata.gitToken.getD "") = true
    ∧ triggerDownstreamWorkflow devSession none true 204 "" 7
      = (if true then TriggerOutcome.dispatched devCall 204
         else TriggerOutcome.dispatchFailed devCall 204 "") :=
  ⟨by decide,
   (trigger_skip_and_dispatch devSession none true 204 "" 7 (by decide)).2
     (by decide) (by decide)⟩
